import Mathlib

/-!
A shallow embedding of the core of the `aws-shell` repository:

* `aws_shell/utils/table.py` — `ResourceTable` with its `filter` / `sort` /
  `find` / `select` / `json` operations and the field-resolution helper
  `_get_value`;
* `aws_shell/utils/search.py` — `flatten_json` and `fuzzy_search`;
* `aws_shell/commands/__init__.py` — `CommandRegistry.dispatch`;
* the Enter-key handler `_handle_enter` of `aws_shell/commands/python_cmd.py`.

Python values are modelled by the inductive `PyVal`; Python builtins the code
leans on (`str`, `repr`, `.lower()`, `in`, `.startswith`, `sorted`,
`json.dumps`) are modelled by executable Lean functions faithful to their
documented behaviour on the data in play (strings are treated as sequences of
code points; `.lower()` is modelled on the ASCII range).
-/

namespace AwsShell

/-- Python `str.lower()` on one character, ASCII range (the repository's
records and every input of the claims are ASCII). -/
def lowerChar (c : Char) : Char :=
  if 65 ≤ c.toNat ∧ c.toNat ≤ 90 then Char.ofNat (c.toNat + 32) else c

/-- Python `s.lower()`. -/
def lowerS (s : String) : String := String.mk (s.data.map lowerChar)

/-- Python `needle in hay` for strings: substring containment
(`"" in s` is True). -/
def containsChars (hay needle : List Char) : Bool :=
  needle.isPrefixOf hay ||
    match hay with
    | [] => false
    | _ :: t => containsChars t needle

/-- Python `needle in hay` on `String`. -/
def containsS (hay needle : String) : Bool := containsChars hay.data needle.data

/-- Python `s.startswith(p)`. -/
def startsWithS (s p : String) : Bool := p.data.isPrefixOf s.data

/-- Python `s.endswith(p)`. -/
def endsWithS (s p : String) : Bool := p.data.isSuffixOf s.data

/-- Python `s.lstrip("*").rstrip("*")`: every leading and trailing asterisk
removed (table.py line 335). -/
def stripStars (s : String) : String :=
  String.mk (((s.data.dropWhile (· == '*')).reverse.dropWhile (· == '*')).reverse)

/-- Python `s[n:]`, slicing by characters. -/
def strDrop (s : String) (n : Nat) : String := String.mk (s.data.drop n)

/-- Python `<` on strings: lexicographic by code point, a proper prefix is
smaller. -/
def charsLt : List Char → List Char → Bool
  | _, [] => false
  | [], _ :: _ => true
  | a :: as, b :: bs => if a < b then true else if b < a then false else charsLt as bs

/-- Python `a < b` on `String`. -/
def strLt (a b : String) : Bool := charsLt a.data b.data

/-- Python `a <= b` on strings: not `b < a`. -/
def strLe (a b : String) : Bool := !(strLt b a)

/-- Python `s.split(sep)` for a one-character separator, the accumulator
`cur` holding the current piece reversed. -/
def splitCharAux (sep : Char) (cur : List Char) : List Char → List String
  | [] => [String.mk cur.reverse]
  | c :: rest =>
      if c == sep then String.mk cur.reverse :: splitCharAux sep [] rest
      else splitCharAux sep (c :: cur) rest

/-- Python `key.split(".")`. -/
def splitDot (s : String) : List String := splitCharAux '.' [] s.data

/-- Python `text.split("\n")`. -/
def splitNewline (s : String) : List String := splitCharAux '\n' [] s.data

/-- A number padded to two digits, as `datetime` renders months, days, hours,
minutes and seconds. -/
def pad2 (n : Nat) : String := if n < 10 then "0" ++ toString n else toString n

/-- A number padded to four digits, as `datetime` renders years. -/
def pad4 (n : Nat) : String :=
  if n < 10 then "000" ++ toString n
  else if n < 100 then "00" ++ toString n
  else if n < 1000 then "0" ++ toString n
  else toString n

/-- A Python value as the repository's data model uses them: JSON-style
records from the AWS SDK plus `datetime.datetime` timestamps (year, month,
day, hour, minute, second; sub-second parts are zero throughout the claims)
and `None`. -/
inductive PyVal : Type where
  | none
  | bool (b : Bool)
  | int (n : Int)
  | str (s : String)
  | dt (year month day hour minute second : Nat)
  | list (xs : List PyVal)
  | dict (fs : List (String × PyVal))

/-- `datetime.isoformat()`: `YYYY-MM-DDTHH:MM:SS`. -/
def isoformat (y mo d h mi s : Nat) : String :=
  pad4 y ++ "-" ++ pad2 mo ++ "-" ++ pad2 d ++ "T" ++ pad2 h ++ ":" ++ pad2 mi ++ ":" ++ pad2 s

/-- `str(datetime)`: as `isoformat` but with a space between date and time. -/
def dtStr (y mo d h mi s : Nat) : String :=
  pad4 y ++ "-" ++ pad2 mo ++ "-" ++ pad2 d ++ " " ++ pad2 h ++ ":" ++ pad2 mi ++ ":" ++ pad2 s

mutual
/-- Python `repr(v)`. String quoting is modelled for strings without quote,
backslash or control characters (every string the repository's records and the
claims use); `repr(datetime)` is the constructor form with a trailing zero
seconds argument omitted. -/
def pyRepr : PyVal → String
  | .none => "None"
  | .bool true => "True"
  | .bool false => "False"
  | .int n => toString n
  | .str s => "'" ++ s ++ "'"
  | .dt y mo d h mi s =>
      "datetime.datetime(" ++ toString y ++ ", " ++ toString mo ++ ", " ++ toString d ++ ", "
        ++ toString h ++ ", " ++ toString mi
        ++ (if s == 0 then "" else ", " ++ toString s) ++ ")"
  | .list xs => "[" ++ String.intercalate ", " (reprList xs) ++ "]"
  | .dict fs => "\x7b" ++ String.intercalate ", " (reprFields fs) ++ "\x7d"

/-- `repr` of each element of a Python list. -/
def reprList : List PyVal → List String
  | [] => []
  | v :: vs => pyRepr v :: reprList vs

/-- `'key': repr(value)` for each entry of a Python dict. -/
def reprFields : List (String × PyVal) → List String
  | [] => []
  | (k, v) :: fs => ("'" ++ k ++ "': " ++ pyRepr v) :: reprFields fs
end

/-- Python `str(v)`: identical to `repr` except on strings and datetimes. -/
def pyStr : PyVal → String
  | .str s => s
  | .dt y mo d h mi s => dtStr y mo d h mi s
  | v => pyRepr v

/-- Python truthiness. -/
def pyTruthy : PyVal → Bool
  | .none => false
  | .bool b => b
  | .int n => n != 0
  | .str s => s != ""
  | .dt _ _ _ _ _ _ => true
  | .list xs => !xs.isEmpty
  | .dict fs => !fs.isEmpty

/-- dict discriminator, Python `isinstance(v, dict)`. -/
def PyVal.isDict : PyVal → Bool
  | .dict _ => true
  | _ => false

/-- list discriminator, Python `isinstance(v, list)`. -/
def PyVal.isList : PyVal → Bool
  | .list _ => true
  | _ => false

/-- Python `v is None`. -/
def PyVal.isNone : PyVal → Bool
  | .none => true
  | _ => false

/-- Python `d.get(k)` distinguishing a missing key (`Option.none`) from an
explicit `None` value (`some PyVal.none`). -/
def dictFind : List (String × PyVal) → String → Option PyVal
  | [], _ => Option.none
  | (k, v) :: fs, key => if k == key then some v else dictFind fs key

/-- Python `d.get(k)` with default `None`: a missing key and an explicit
`None` collapse, exactly as `_get_value`'s `current.get(part)` sees them. -/
def pyGet (fs : List (String × PyVal)) (k : String) : PyVal :=
  (dictFind fs k).getD PyVal.none

/-- The dotted-path loop of `_get_value` (table.py lines 78-85):
`for part in parts: current = current.get(part)` while `current` is a dict,
`None` otherwise. -/
def walkPath : PyVal → List String → PyVal
  | cur, [] => cur
  | .dict fs, p :: ps => walkPath (pyGet fs p) ps
  | _, _ :: _ => .none

/-- `tag.get("Key") == tag_name`: Python `==` between a non-string and a
string is False. -/
def tagKeyIs (fs : List (String × PyVal)) (name : String) : Bool :=
  match dictFind fs "Key" with
  | some (.str s) => s == name
  | _ => false

/-- The tag loop of `_get_value` (table.py lines 72-76): the first dict tag
whose `Key` equals the name yields `tag.get("Value", "")`; no match yields
the empty string. -/
def tagScan : List PyVal → String → PyVal
  | [], _ => .str ""
  | .dict fs :: rest, name =>
      if tagKeyIs fs name then (dictFind fs "Value").getD (.str "")
      else tagScan rest name
  | _ :: rest, name => tagScan rest name

/-- `item.get("Tags") or []` iterated as a list of tags. A truthy `Tags`
string or dict iterates to non-dict elements and yields "" in Python exactly
as here; a truthy non-iterable `Tags` would raise in Python, which no record
of the repository and no claim exercises. -/
def tagsOf (fs : List (String × PyVal)) : List PyVal :=
  match pyGet fs "Tags" with
  | .list xs => xs
  | _ => []

/-- `_get_value(item, key)` of table.py (lines 59-85): non-dicts come back
unchanged; a `Tags.`-prefixed key scans the tag list; any other key is walked
as a dotted path. -/
def get_value (item : PyVal) (key : String) : PyVal :=
  match item with
  | .dict fs =>
      if startsWithS key "Tags." then tagScan (tagsOf fs) (strDrop key 5)
      else walkPath (.dict fs) (splitDot key)
  | v => v

/-- Field resolution inside `ResourceTable.filter`'s keyword loop (table.py
lines 341-343): `_get_value(item, key)`, retried as `Tags.<key>` when it
yields `None`. -/
def kwResolve (item : PyVal) (key : String) : PyVal :=
  let v := get_value item key
  if v.isNone then get_value item ("Tags." ++ key) else v

/-- The scalar branch of the keyword match (table.py lines 352-369), already
given the wildcard flags, the stripped lowered value and the lowered item
string. -/
def scalarMatch (hasPre hasSuf : Bool) (matchVal itemStr : String) : Bool :=
  if hasPre && hasSuf then containsS itemStr matchVal
  else if hasPre then endsWithS itemStr matchVal
  else if hasSuf then startsWithS itemStr matchVal
  else itemStr == matchVal

/-- One record's fate in the keyword loop of `ResourceTable.filter`
(table.py lines 337-369): non-dict records `continue`; a resolved `None`
`continue`s; dict or list values compare by containment over their
stringified members; scalars by the wildcard mode. -/
def kwMatch (key : String) (value : PyVal) (item : PyVal) : Bool :=
  match item with
  | .dict _ =>
      let valueStr := pyStr value
      let valueLower := lowerS valueStr
      let hasPre := startsWithS valueStr "*"
      let hasSuf := endsWithS valueStr "*"
      let matchVal := stripStars valueLower
      (match kwResolve item key with
       | .none => false
       | .dict fs => (fs.map Prod.snd).any (fun v => containsS (lowerS (pyStr v)) matchVal)
       | .list xs => xs.any (fun v => containsS (lowerS (pyStr v)) matchVal)
       | v => scalarMatch hasPre hasSuf matchVal (lowerS (pyStr v)))
  | _ => false

/-- The ResourceTable wrapper (`_data`, `_columns`, `_title`). A column's
optional third entry (a style) only affects rendering and is elided. -/
structure ResourceTable where
  data : List PyVal
  columns : Option (List (String × String)) := Option.none
  title : Option String := Option.none

/-- Keyword mode of `ResourceTable.filter` for one `key=value` pair
(table.py lines 322-371): the loop `for item in filtered: ...
result.append(item)` is `List.filter` of `kwMatch`; columns and title carry
over to the new table. -/
def ResourceTable.filterKw (t : ResourceTable) (key : String) (value : PyVal) : ResourceTable :=
  ⟨t.data.filter (kwMatch key value), t.columns, t.title⟩

/-- Predicate mode of `ResourceTable.filter` (table.py line 323): keep the
items on which `fn(item)` is truthy. -/
def ResourceTable.filterFn (t : ResourceTable) (fn : PyVal → PyVal) : ResourceTable :=
  ⟨t.data.filter (fun i => pyTruthy (fn i)), t.columns, t.title⟩

/-- The sort key of `ResourceTable.sort`: `str(_get_value(x, key) or "")`
(table.py line 380). -/
def sortKey (key : String) (x : PyVal) : String :=
  pyStr (if pyTruthy (get_value x key) then get_value x key else PyVal.str "")

/-- Stable insertion: `x` goes after every `y` with `lt y x`. -/
def pyInsert (lt : α → α → Bool) (x : α) : List α → List α
  | [] => [x]
  | y :: ys => if lt y x then y :: pyInsert lt x ys else x :: y :: ys

/-- CPython's `sorted` contract — a stable sort under the given strict
comparison — modelled by stable insertion sort; stability, order and
permutation are proved below. -/
def pySorted (lt : α → α → Bool) : List α → List α
  | [] => []
  | x :: xs => pyInsert lt x (pySorted lt xs)

/-- The strict comparison `sorted` runs under `ResourceTable.sort`:
`reverse=True` reverses it (equal elements keep their original order either
way — CPython's documented behaviour). -/
def sortLt (key : String) (reverse : Bool) (a b : PyVal) : Bool :=
  if reverse then strLt (sortKey key b) (sortKey key a)
  else strLt (sortKey key a) (sortKey key b)

/-- `ResourceTable.sort(key, reverse)` (table.py lines 373-383): `sorted`
with string keys. -/
def ResourceTable.sort (t : ResourceTable) (key : String) (reverse : Bool) : ResourceTable :=
  ⟨pySorted (sortLt key reverse) t.data, t.columns, t.title⟩

mutual
/-- `flatten_json` of search.py (lines 4-23): dict keys become dotted paths,
list indices bracketed indices, scalars `(path, str(value))` pairs. -/
def flatten_json : PyVal → String → List (String × String)
  | .dict fs, pre => flattenFields fs pre
  | .list xs, pre => flattenItems xs pre 0
  | v, pre => [(pre, pyStr v)]

/-- The dict branch of `flatten_json`. -/
def flattenFields : List (String × PyVal) → String → List (String × String)
  | [], _ => []
  | (k, v) :: rest, pre =>
      let path := if pre == "" then k else pre ++ "." ++ k
      (if v.isDict || v.isList then flatten_json v path else [(path, pyStr v)]) ++
        flattenFields rest pre

/-- The list branch of `flatten_json`, `i` the running `enumerate` index. -/
def flattenItems : List PyVal → String → Nat → List (String × String)
  | [], _, _ => []
  | v :: rest, pre, i =>
      let path := pre ++ "[" ++ toString i ++ "]"
      (if v.isDict || v.isList then flatten_json v path else [(path, pyStr v)]) ++
        flattenItems rest pre (i + 1)
end

/-- `fuzzy_search(data, keyword)` of search.py (lines 26-38): the flattened
pairs in which the keyword occurs case-insensitively. -/
def fuzzy_search (data : PyVal) (keyword : String) : List (String × String) :=
  let kl := lowerS keyword
  (flatten_json data "").filter (fun pv => containsS (lowerS pv.1) kl || containsS (lowerS pv.2) kl)

/-- The per-record test of `ResourceTable.find` (table.py lines 394-402):
dicts match through `flatten_json`, anything else by substring over
`str(item)`. -/
def findMatch (keyword : String) (item : PyVal) : Bool :=
  let kl := lowerS keyword
  match item with
  | .dict _ =>
      (flatten_json item "").any (fun pv => containsS (lowerS pv.2) kl || containsS (lowerS pv.1) kl)
  | _ => containsS (lowerS (pyStr item)) kl

/-- `ResourceTable.find(keyword)` (table.py lines 385-406). -/
def ResourceTable.find (t : ResourceTable) (keyword : String) : ResourceTable :=
  ⟨t.data.filter (findMatch keyword), t.columns, some ("Search: '" ++ keyword ++ "'")⟩

/-- Python `s.split(":", 1)`: the text before the first colon and the text
after it, `Option.none` when there is no colon. -/
def splitFirstColon (pre : List Char) : List Char → Option (String × String)
  | [] => Option.none
  | c :: rest =>
      if c == ':' then some (String.mk pre.reverse, String.mk rest)
      else splitFirstColon (c :: pre) rest

/-- Python `str.strip()`: whitespace removed at both ends. -/
def pyStrip (s : String) : String :=
  String.mk (((s.data.dropWhile Char.isWhitespace).reverse.dropWhile Char.isWhitespace).reverse)

/-- One column spec of `ResourceTable.select` (table.py lines 414-420):
`"key:Header"` or a bare `"key"`. -/
def parseColSpec (col : String) : String × String :=
  match splitFirstColon [] col.data with
  | some (k, h) => (pyStrip k, pyStrip h)
  | Option.none => (pyStrip col, pyStrip col)

/-- `ResourceTable.select(*keys)` (table.py lines 408-421): re-projects the
display columns; the data passes through untouched. -/
def ResourceTable.select (t : ResourceTable) (keys : List String) : ResourceTable :=
  ⟨t.data, some (keys.map parseColSpec), t.title⟩

/-! ### A store of Python list objects, for the mutation claim

`ResourceTable._data` aliases a Python list object. To state that no
operation mutates its receiver, each operation is modelled against an
explicit store of list objects: an operation that builds a new list
(`filter`, `sort`, `find`) allocates a fresh address, `select` shares its
receiver's list object, and — tracing every statement of the four method
bodies — nothing ever writes to an existing address. -/

/-- A heap of Python list objects; an address indexes the list it holds. -/
abbrev Store := List (List PyVal)

/-- A table whose `_data` is the list object at `dataAddr`. -/
structure TableObj where
  dataAddr : Nat
  columns : Option (List (String × String))
  title : Option String

/-- The list object at an address. -/
def readAddr (s : Store) (a : Nat) : List PyVal := (s[a]?).getD []

/-- Allocate a fresh list object at the next free address. -/
def allocList (s : Store) (l : List PyVal) : Store × Nat := (s ++ [l], s.length)

/-- `ResourceTable.filter(key=value)` against the store: the loop's
`result` is a fresh list object; `self._data` is only read. -/
def filterKwOp (s : Store) (t : TableObj) (key : String) (value : PyVal) : Store × TableObj :=
  let d := readAddr s t.dataAddr
  let sa := allocList s (d.filter (kwMatch key value))
  (sa.1, ⟨sa.2, t.columns, t.title⟩)

/-- `ResourceTable.filter(fn)` against the store: the comprehension
`[item for item in self._data if fn(item)]` is a fresh list object. -/
def filterFnOp (s : Store) (t : TableObj) (fn : PyVal → PyVal) : Store × TableObj :=
  let d := readAddr s t.dataAddr
  let sa := allocList s (d.filter (fun i => pyTruthy (fn i)))
  (sa.1, ⟨sa.2, t.columns, t.title⟩)

/-- `ResourceTable.sort` against the store: `sorted(self._data, ...)`
returns a fresh list (the method never calls the in-place `list.sort`). -/
def sortOp (s : Store) (t : TableObj) (key : String) (reverse : Bool) : Store × TableObj :=
  let d := readAddr s t.dataAddr
  let sa := allocList s (pySorted (sortLt key reverse) d)
  (sa.1, ⟨sa.2, t.columns, t.title⟩)

/-- `ResourceTable.find` against the store: `matching` is a fresh list. -/
def findOp (s : Store) (t : TableObj) (keyword : String) : Store × TableObj :=
  let d := readAddr s t.dataAddr
  let sa := allocList s (d.filter (findMatch keyword))
  (sa.1, ⟨sa.2, t.columns, some ("Search: '" ++ keyword ++ "'")⟩)

/-- `ResourceTable.select` against the store: the new table shares its
receiver's `_data` object (table.py line 421 passes `self._data` through);
the store is untouched. -/
def selectOp (s : Store) (t : TableObj) (keys : List String) : Store × TableObj :=
  (s, ⟨t.dataAddr, some (keys.map parseColSpec), t.title⟩)

/-! ### The command registry and its dispatcher -/

/-- A Python exception as `dispatch` distinguishes them: the two control-flow
signals, re-raised, and any other exception of the `Exception` hierarchy with
its printed message. (`BaseException`s outside that hierarchy — `SystemExit`,
`GeneratorExit` — are raised by no handler of the repository and are outside
the model.) -/
inductive PyExc where
  | eofError
  | keyboardInterrupt
  | exc (msg : String)
deriving DecidableEq

/-- A command handler, `handler(args, config, session)`: it either returns or
raises. The config and session arguments thread state no claim touches and
are elided. -/
abbrev Handler := List String → Except PyExc Unit

/-- One entry of `self._commands`: `{"handler": ..., "help": ...}`. -/
structure CmdEntry where
  handler : Handler
  help : String

/-- `self._commands`, a string-keyed mapping. -/
abbrev Registry := List (String × CmdEntry)

/-- Python `command in self._commands` / `self._commands[command]`. -/
def regFind : Registry → String → Option CmdEntry
  | [], _ => Option.none
  | (k, e) :: r, c => if k == c then some e else regFind r c

/-- What one `dispatch` call produces: the lines the dispatcher itself
prints, the exception it re-raises (if any), and the registry afterwards. -/
structure DispatchResult where
  output : List String
  raised : Option PyExc
  registryAfter : Registry

/-- The `Error:` line of `dispatch`'s generic except branch. -/
def errorLine (msg : String) : String := "[bold red]Error:[/bold red] " ++ msg

/-- The unknown-command notice of `dispatch`. -/
def unknownLine (command : String) : String :=
  "[bold red]Unknown command:[/bold red] " ++ command ++
    "\nType [bold cyan]help[/bold cyan] to see available commands."

/-- `CommandRegistry.dispatch` (commands/__init__.py lines 79-93): an
unregistered command prints the notice; `EOFError` and `KeyboardInterrupt`
re-raise; every other exception prints an `Error:` line and returns. The
method never writes `self._commands`. -/
def dispatch (reg : Registry) (command : String) (args : List String) : DispatchResult :=
  match regFind reg command with
  | some e =>
      match e.handler args with
      | .ok _ => ⟨[], Option.none, reg⟩
      | .error .eofError => ⟨[], some .eofError, reg⟩
      | .error .keyboardInterrupt => ⟨[], some .keyboardInterrupt, reg⟩
      | .error (.exc m) => ⟨[errorLine m], Option.none, reg⟩
  | Option.none => ⟨[unknownLine command], Option.none, reg⟩

/-! ### The Enter-key handler of the Python sub-mode -/

/-- What `codeop.CommandCompiler()(text, "<input>", "exec")` can do: return a
code object, return `None` (more input needed), or raise one of the
syntax-level errors the handler catches (`SyntaxError`, `OverflowError`,
`ValueError`). The compiler front-end is external; the handler is modelled
parametrically in it. -/
inductive CompileRes where
  | complete
  | needsMore
  | syntaxErr
deriving DecidableEq

/-- The two outcomes of one Enter keystroke: submit the buffer, or insert a
newline and keep editing. -/
inductive EnterAction where
  | submit
  | insertNewline
deriving DecidableEq

/-- Python `not text.strip()`. -/
def isBlank (s : String) : Bool := s.data.all Char.isWhitespace

/-- `text.split("\n")[-1]`. -/
def lastLine (s : String) : String := (splitNewline s).getLastD ""

/-- `last_line and last_line[0] in (" ", "\t")`. -/
def lastLineIndented (s : String) : Bool :=
  match (lastLine s).data with
  | c :: _ => c == ' ' || c == '\t'
  | [] => false

/-- `_handle_enter` of python_cmd.py (lines 353-377) as the submit decision:
a blank buffer submits at once; a buffer whose last line is indented always
takes another line; otherwise the compile attempt decides — a syntax-level
error submits, `None` takes another line, a code object submits. -/
def handleEnter (compileFn : String → CompileRes) (text : String) : EnterAction :=
  if isBlank text then .submit
  else if lastLineIndented text then .insertNewline
  else
    match compileFn text with
    | .syntaxErr => .submit
    | .needsMore => .insertNewline
    | .complete => .submit

/-- The claim's transition rule, as the spec words it: a syntax-level error
submits, "needs more input" takes another line, otherwise submit. -/
def specEnterRule : CompileRes → EnterAction
  | .syntaxErr => .submit
  | .needsMore => .insertNewline
  | .complete => .submit

/-! ### JSON serialization -/

/-- A JSON document tree: the structure the text of `json.dumps` parses back
to under `json.loads` (indentation and key order are immaterial at this
level). -/
inductive Json where
  | jnull
  | jbool (b : Bool)
  | jnum (n : Int)
  | jstr (s : String)
  | jarr (xs : List Json)
  | jobj (fs : List (String × Json))

mutual
/-- The document `json.dumps(value, indent=2, cls=_DateTimeEncoder,
default=str)` serializes, as `ResourceTable.json` calls it (table.py line
432). CPython's `dumps` hands `default` to the encoder class constructor,
and `JSONEncoder.__init__` stores a non-None `default` argument as an
instance attribute that shadows the `default` method `_DateTimeEncoder`
defines (table.py lines 144-148) — so an unrecognized scalar, a datetime
included, is serialized through `str(value)`, never through the class's
`isoformat`. -/
def encodeVal : PyVal → Json
  | .none => .jnull
  | .bool b => .jbool b
  | .int n => .jnum n
  | .str s => .jstr s
  | .dt y mo d h mi s => .jstr (dtStr y mo d h mi s)
  | .list xs => .jarr (encodeList xs)
  | .dict fs => .jobj (encodeFields fs)

/-- `encodeVal` over a Python list. -/
def encodeList : List PyVal → List Json
  | [] => []
  | v :: vs => encodeVal v :: encodeList vs

/-- `encodeVal` over a Python dict. -/
def encodeFields : List (String × PyVal) → List (String × Json)
  | [] => []
  | (k, v) :: fs => (k, encodeVal v) :: encodeFields fs
end

/-- `ResourceTable.json` (table.py lines 428-434) at document level: the
record list serialized as a JSON array. -/
def ResourceTable.jsonDoc (t : ResourceTable) : Json := .jarr (encodeList t.data)

mutual
/-- The document the claim describes (claim-side definition, for comparison
with `encodeVal`): the raw data with every datetime-like scalar appearing as
its ISO-8601 string. -/
def specEncodeVal : PyVal → Json
  | .none => .jnull
  | .bool b => .jbool b
  | .int n => .jnum n
  | .str s => .jstr s
  | .dt y mo d h mi s => .jstr (isoformat y mo d h mi s)
  | .list xs => .jarr (specEncodeList xs)
  | .dict fs => .jobj (specEncodeFields fs)

/-- `specEncodeVal` over a Python list. -/
def specEncodeList : List PyVal → List Json
  | [] => []
  | v :: vs => specEncodeVal v :: specEncodeList vs

/-- `specEncodeVal` over a Python dict. -/
def specEncodeFields : List (String × PyVal) → List (String × Json)
  | [] => []
  | (k, v) :: fs => (k, specEncodeVal v) :: specEncodeFields fs
end

/-! ### Claim-side formulations for the filter and sort claims -/

/-- The claim's scalar wildcard rule, stated its way: the match mode comes
from the leading and trailing asterisks of the value; the stripped value is
compared case-insensitively by containment, suffix or prefix; a value
without markers must case-insensitively equal the stringified field. -/
def specScalarKeep (value itemStr : String) : Bool :=
  if startsWithS value "*" && endsWithS value "*" then
    containsS (lowerS itemStr) (lowerS (stripStars value))
  else if startsWithS value "*" then
    endsWithS (lowerS itemStr) (lowerS (stripStars value))
  else if endsWithS value "*" then
    startsWithS (lowerS itemStr) (lowerS (stripStars value))
  else lowerS itemStr == lowerS value

/-- The amended per-record predicate of the keyword filter: mapping records
only; the field resolves through `kwResolve` (dotted path, then the tag
fallback); a record whose field resolves to `None` even after the fallback is
dropped; a collection-valued field matches by containment over its
stringified members whatever the markers; a scalar field matches by
`specScalarKeep`. -/
def specKeep (key value : String) (item : PyVal) : Bool :=
  item.isDict &&
    (match kwResolve item key with
     | .none => false
     | .dict fs =>
         (fs.map Prod.snd).any (fun v => containsS (lowerS (pyStr v)) (lowerS (stripStars value)))
     | .list xs =>
         xs.any (fun v => containsS (lowerS (pyStr v)) (lowerS (stripStars value)))
     | v => specScalarKeep value (pyStr v))

/-- The claim's sort key: the string form of the resolved field value, the
empty string exactly for an unresolvable field. -/
def claimSortKey (key : String) (x : PyVal) : String :=
  match get_value x key with
  | .none => ""
  | v => pyStr v

/-! ### Bridging lemmas -/

theorem charBeq_comm (a b : Char) : (a == b) = (b == a) := by
  by_cases h : a = b
  · subst h; rfl
  · rw [beq_eq_false_iff_ne.mpr h, beq_eq_false_iff_ne.mpr (Ne.symm h)]

theorem lowerChar_star (c : Char) : (lowerChar c == '*') = (c == '*') := by
  unfold lowerChar
  split
  · rename_i h
    obtain ⟨h1, h2⟩ := h
    have hne : Char.ofNat (c.toNat + 32) ≠ '*' := by
      intro he
      have h3 := congrArg Char.toNat he
      set n := c.toNat with hn
      interval_cases n <;> exact absurd h3 (by decide)
    have hcne : c ≠ '*' := by
      intro he
      subst he
      exact absurd h1 (by decide)
    rw [beq_eq_false_iff_ne.mpr hne, beq_eq_false_iff_ne.mpr hcne]
  · rfl

theorem dropWhile_star_map_lower (l : List Char) :
    (l.map lowerChar).dropWhile (· == '*') = (l.dropWhile (· == '*')).map lowerChar := by
  induction l with
  | nil => rfl
  | cons c t ih =>
      simp only [List.map_cons, List.dropWhile_cons, lowerChar_star]
      by_cases hc : (c == '*') = true
      · simp [hc, ih]
      · simp [Bool.eq_false_iff.mpr hc]

theorem stripStars_lowerS (s : String) : stripStars (lowerS s) = lowerS (stripStars s) := by
  unfold stripStars lowerS
  apply String.ext
  simp only [dropWhile_star_map_lower, ← List.map_reverse]

theorem startsWith_star_head (s : String) :
    startsWithS s "*" = (match s.data with | [] => false | c :: _ => c == '*') := by
  unfold startsWithS
  cases h : s.data with
  | nil => rfl
  | cons c t => simp [List.isPrefixOf, charBeq_comm]

theorem endsWith_star_last (s : String) :
    endsWithS s "*" = (match s.data.reverse with | [] => false | c :: _ => c == '*') := by
  unfold endsWithS
  rw [List.isSuffixOf]
  cases h : s.data.reverse with
  | nil => simp [h, List.isPrefixOf]
  | cons c t => simp [h, List.isPrefixOf, charBeq_comm]

theorem stripStars_eq_self (s : String) (h1 : startsWithS s "*" = false)
    (h2 : endsWithS s "*" = false) : stripStars s = s := by
  rw [startsWith_star_head] at h1
  rw [endsWith_star_last] at h2
  unfold stripStars
  apply String.ext
  have hd : s.data.dropWhile (· == '*') = s.data := by
    cases h : s.data with
    | nil => rfl
    | cons c t =>
        rw [h] at h1
        have h1' : (c == '*') = false := h1
        simp [List.dropWhile_cons, h1']
  rw [hd]
  have hr : s.data.reverse.dropWhile (· == '*') = s.data.reverse := by
    cases h : s.data.reverse with
    | nil => rfl
    | cons c t =>
        rw [h] at h2
        have h2' : (c == '*') = false := h2
        simp [List.dropWhile_cons, h2']
  rw [hr, List.reverse_reverse]

/-! ### C9: filtering is idempotent -/

/-- C9: for every collection and every single filter argument — one predicate
or one `field=value` pair — filtering twice yields the same record sequence
as filtering once. -/
theorem filter_idempotent :
    ∀ (t : ResourceTable) (fn : PyVal → PyVal) (key : String) (value : PyVal),
      ((t.filterFn fn).filterFn fn).data = (t.filterFn fn).data
      ∧ ((t.filterKw key value).filterKw key value).data = (t.filterKw key value).data := by
  intro t fn key value
  constructor
  · simp only [ResourceTable.filterFn]
    rw [List.filter_filter]
    simp
  · simp only [ResourceTable.filterKw]
    rw [List.filter_filter]
    simp

/-! ### C10: keyword filtering drops every non-mapping record -/

/-- C10: in keyword mode the filter skips every record that is not a mapping,
so a collection of scalar records filters to the empty collection whatever
the field and value. -/
theorem filterKw_scalar_records_empty :
    ∀ (t : ResourceTable) (key : String) (value : PyVal),
      (∀ item ∈ t.data, item.isDict = false) → (t.filterKw key value).data = [] := by
  intro t key value h
  simp only [ResourceTable.filterKw]
  rw [List.filter_eq_nil_iff]
  intro a ha
  have hd := h a ha
  cases a with
  | dict fs => simp [PyVal.isDict] at hd
  | none => simp [kwMatch]
  | bool b => simp [kwMatch]
  | int n => simp [kwMatch]
  | str s => simp [kwMatch]
  | dt y mo d hh mi ss => simp [kwMatch]
  | list xs => simp [kwMatch]

/-- C10 witness: the SQS queue-URL listing is a list of plain strings
(`python_cmd.py` lines 1076-1081); any keyword filter on it is empty. -/
theorem filterKw_scalar_records_empty_witness :
    (ResourceTable.filterKw
      ⟨[PyVal.str "https://sqs.us-east-1.amazonaws.com/1/queue-a",
        PyVal.str "https://sqs.us-east-1.amazonaws.com/1/queue-b"],
        Option.none, some "SQS Queues"⟩ "Name" (PyVal.str "queue-a")).data = [] :=
  filterKw_scalar_records_empty _ "Name" (PyVal.str "queue-a") (by decide)

/-! ### C3: dispatcher isolation -/

/-- C3: dispatch re-raises exactly the two control-flow signals; any other
exception from the handler becomes one printed `Error:` line and a normal
return; an unregistered command prints the unknown-command notice and
returns; the registry is never modified, so a later dispatch behaves as if
the failing one had not happened. -/
theorem dispatch_isolation :
    ∀ (reg : Registry) (command : String) (args : List String),
      (dispatch reg command args).registryAfter = reg
      ∧ (∀ e, (dispatch reg command args).raised = some e →
          (e = PyExc.eofError ∨ e = PyExc.keyboardInterrupt)
          ∧ ∃ en, regFind reg command = some en ∧ en.handler args = .error e)
      ∧ (∀ en m, regFind reg command = some en → en.handler args = .error (.exc m) →
          dispatch reg command args = ⟨[errorLine m], Option.none, reg⟩)
      ∧ (regFind reg command = Option.none →
          dispatch reg command args = ⟨[unknownLine command], Option.none, reg⟩)
      ∧ (∀ command2 args2,
          dispatch (dispatch reg command args).registryAfter command2 args2
            = dispatch reg command2 args2) := by
  intro reg command args
  cases hf : regFind reg command with
  | none =>
      have hd : dispatch reg command args = ⟨[unknownLine command], Option.none, reg⟩ := by
        unfold dispatch
        simp only [hf]
      refine ⟨by rw [hd], ?_, ?_, fun _ => hd, fun c2 a2 => by rw [hd]⟩
      · intro e he
        rw [hd] at he
        have he' : (Option.none : Option PyExc) = some e := he
        exact Option.noConfusion he'
      · intro en2 m2 hf2 hh2
        exact Option.noConfusion hf2
  | some en =>
      cases hh : en.handler args with
      | ok u =>
          have hd : dispatch reg command args = ⟨[], Option.none, reg⟩ := by
            unfold dispatch
            simp only [hf, hh]
          refine ⟨by rw [hd], ?_, ?_, ?_, fun c2 a2 => by rw [hd]⟩
          · intro e he
            rw [hd] at he
            have he' : (Option.none : Option PyExc) = some e := he
            exact Option.noConfusion he'
          · intro en2 m2 hf2 hh2
            injection hf2 with h3
            subst h3
            rw [hh] at hh2
            exact Except.noConfusion hh2
          · intro hnone
            exact Option.noConfusion hnone
      | error ex =>
          cases ex with
          | eofError =>
              have hd : dispatch reg command args = ⟨[], some PyExc.eofError, reg⟩ := by
                unfold dispatch
                simp only [hf, hh]
              refine ⟨by rw [hd], ?_, ?_, ?_, fun c2 a2 => by rw [hd]⟩
              · intro e he
                rw [hd] at he
                have he' : some PyExc.eofError = some e := he
                injection he' with h3
                subst h3
                exact ⟨Or.inl rfl, en, rfl, hh⟩
              · intro en2 m2 hf2 hh2
                injection hf2 with h3
                subst h3
                rw [hh] at hh2
                injection hh2 with h4
                exact PyExc.noConfusion h4
              · intro hnone
                exact Option.noConfusion hnone
          | keyboardInterrupt =>
              have hd : dispatch reg command args = ⟨[], some PyExc.keyboardInterrupt, reg⟩ := by
                unfold dispatch
                simp only [hf, hh]
              refine ⟨by rw [hd], ?_, ?_, ?_, fun c2 a2 => by rw [hd]⟩
              · intro e he
                rw [hd] at he
                have he' : some PyExc.keyboardInterrupt = some e := he
                injection he' with h3
                subst h3
                exact ⟨Or.inr rfl, en, rfl, hh⟩
              · intro en2 m2 hf2 hh2
                injection hf2 with h3
                subst h3
                rw [hh] at hh2
                injection hh2 with h4
                exact PyExc.noConfusion h4
              · intro hnone
                exact Option.noConfusion hnone
          | exc m =>
              have hd : dispatch reg command args = ⟨[errorLine m], Option.none, reg⟩ := by
                unfold dispatch
                simp only [hf, hh]
              refine ⟨by rw [hd], ?_, ?_, ?_, fun c2 a2 => by rw [hd]⟩
              · intro e he
                rw [hd] at he
                have he' : (Option.none : Option PyExc) = some e := he
                exact Option.noConfusion he'
              · intro en2 m2 hf2 hh2
                injection hf2 with h3
                subst h3
                rw [hh] at hh2
                injection hh2 with h4
                injection h4 with h5
                subst h5
                exact hd
              · intro hnone
                exact Option.noConfusion hnone

/-! ### C2: transforms never mutate their source collection -/

/-- C2: each transform operation leaves the list object behind its receiver's
`_data` unchanged — `filter`, `sort` and `find` build their result in a
freshly allocated list, and `select` neither allocates nor writes — so after
any of the four calls the original collection's data reads back exactly as
before. -/
theorem transform_ops_preserve_source_data :
    ∀ (s : Store) (t : TableObj) (key : String) (value : PyVal) (fn : PyVal → PyVal)
      (skey : String) (reverse : Bool) (keyword : String) (cols : List String),
      t.dataAddr < s.length →
      (readAddr (filterKwOp s t key value).1 t.dataAddr = readAddr s t.dataAddr
        ∧ (filterKwOp s t key value).2.dataAddr ≠ t.dataAddr)
      ∧ (readAddr (filterFnOp s t fn).1 t.dataAddr = readAddr s t.dataAddr
        ∧ (filterFnOp s t fn).2.dataAddr ≠ t.dataAddr)
      ∧ (readAddr (sortOp s t skey reverse).1 t.dataAddr = readAddr s t.dataAddr
        ∧ (sortOp s t skey reverse).2.dataAddr ≠ t.dataAddr)
      ∧ (readAddr (findOp s t keyword).1 t.dataAddr = readAddr s t.dataAddr
        ∧ (findOp s t keyword).2.dataAddr ≠ t.dataAddr)
      ∧ (selectOp s t cols).1 = s := by
  intro s t key value fn skey reverse keyword cols h
  have halloc : ∀ (l : List PyVal), readAddr (s ++ [l]) t.dataAddr = readAddr s t.dataAddr := by
    intro l
    unfold readAddr
    rw [List.getElem?_append]
    simp [h]
  have hfresh : s.length ≠ t.dataAddr := by omega
  exact ⟨⟨halloc _, hfresh⟩, ⟨halloc _, hfresh⟩, ⟨halloc _, hfresh⟩, ⟨halloc _, hfresh⟩, rfl⟩

/-- C2 witness: a store with one one-record list at address 0; each transform
leaves what address 0 holds untouched and allocates elsewhere. -/
theorem transform_ops_preserve_source_data_witness :
    readAddr (filterKwOp [[PyVal.str "a"]] ⟨0, Option.none, Option.none⟩ "Name" (PyVal.str "a")).1 0
      = readAddr [[PyVal.str "a"]] 0 :=
  (transform_ops_preserve_source_data [[PyVal.str "a"]] ⟨0, Option.none, Option.none⟩
    "Name" (PyVal.str "a") (fun i => i) "v" false "kw" ["k"] (by decide)).1.1

/-! ### C8: the Enter-key submit decision -/

/-- C8 counterexample: with the buffer `"if True:\n    pass"` — whose last
line is indented — the handler inserts a newline without consulting the
compiler, although the compile attempt returns a complete code object and
the claimed rule would submit. -/
theorem enter_indented_cex :
    handleEnter (fun _ => CompileRes.complete) "if True:\n    pass" = EnterAction.insertNewline
    ∧ specEnterRule ((fun _ => CompileRes.complete) "if True:\n    pass") = EnterAction.submit :=
  ⟨rfl, rfl⟩

/-- C8 amended: for a buffer that is not blank and whose last line is not
indented, the submit decision follows the claimed rule exactly: a
syntax-level error submits, "needs more input" stays incomplete, otherwise
submit. -/
theorem enter_submit_rule :
    ∀ (compileFn : String → CompileRes) (text : String),
      isBlank text = false → lastLineIndented text = false →
      handleEnter compileFn text = specEnterRule (compileFn text) := by
  intro cf text h1 h2
  unfold handleEnter
  rw [h1, h2]
  simp only [Bool.false_eq_true, if_false]
  cases cf text <;> rfl

/-- C8 witness: `"def f(x):"` under a compiler answering "needs more input"
stays incomplete. -/
theorem enter_submit_rule_witness :
    handleEnter (fun _ => CompileRes.needsMore) "def f(x):" = EnterAction.insertNewline :=
  enter_submit_rule (fun _ => CompileRes.needsMore) "def f(x):" (by decide) (by decide)

/-! ### C5: json() and datetimes -/

/-- C5: at the failing input — a collection holding the single record
`datetime(2024, 1, 2, 3, 4, 5)` — the document `json()` serializes carries
the `str()` form `"2024-01-02 03:04:05"` (because `dumps` is passed
`default=str`, which shadows `_DateTimeEncoder.default`), while the claim's
round-trip document carries the ISO-8601 form `"2024-01-02T03:04:05"`; the
two strings differ. -/
theorem json_datetime_divergence :
    ResourceTable.jsonDoc ⟨[PyVal.dt 2024 1 2 3 4 5], Option.none, Option.none⟩
      = Json.jarr [Json.jstr "2024-01-02 03:04:05"]
    ∧ specEncodeVal (PyVal.dt 2024 1 2 3 4 5) = Json.jstr "2024-01-02T03:04:05"
    ∧ dtStr 2024 1 2 3 4 5 ≠ isoformat 2024 1 2 3 4 5 := by
  refine ⟨rfl, rfl, ?_⟩
  intro h
  have h2 : ("2024-01-02 03:04:05" : String) = "2024-01-02T03:04:05" := h
  exact absurd h2 (by decide)

/-! ### Sorting theory: pySorted is a stable sort -/

theorem charsLt_irrefl : ∀ l : List Char, charsLt l l = false := by
  intro l
  induction l with
  | nil => rfl
  | cons c t ih =>
      unfold charsLt
      rw [if_neg (lt_irrefl c), if_neg (lt_irrefl c)]
      exact ih

theorem charsLt_asymm : ∀ l m : List Char, charsLt l m = true → charsLt m l = false := by
  intro l
  induction l with
  | nil =>
      intro m h
      cases m with
      | nil => exact Bool.noConfusion h
      | cons b bs => rfl
  | cons a as ih =>
      intro m h
      cases m with
      | nil => exact Bool.noConfusion h
      | cons b bs =>
          unfold charsLt at h ⊢
          by_cases hab : a < b
          · rw [if_neg (lt_asymm hab), if_pos hab]
          · rw [if_neg hab] at h
            by_cases hba : b < a
            · rw [if_pos hba] at h
              exact Bool.noConfusion h
            · rw [if_neg hba] at h
              rw [if_neg hab, if_neg hba]
              exact ih bs h

theorem strLt_asymm (a b : String) : strLt a b = true → strLt b a = false :=
  charsLt_asymm a.data b.data

theorem strLt_irrefl (a : String) : strLt a a = false := charsLt_irrefl a.data

theorem pyInsert_chain {α : Type} (lt : α → α → Bool)
    (hasym : ∀ a b, lt a b = true → lt b a = false) (x : α) :
    ∀ l : List α, List.Chain' (fun a b => lt b a = false) l →
      List.Chain' (fun a b => lt b a = false) (pyInsert lt x l) := by
  intro l
  induction l with
  | nil =>
      intro _
      simp [pyInsert]
  | cons y ys ih =>
      intro hl
      unfold pyInsert
      by_cases hyx : lt y x = true
      · rw [if_pos hyx]
        have hys := hl.tail
        have hins := ih hys
        cases ys with
        | nil =>
            simp only [pyInsert]
            exact List.chain'_cons.mpr ⟨hasym _ _ hyx, List.chain'_singleton x⟩
        | cons z zs =>
            rw [List.chain'_cons] at hl
            unfold pyInsert at hins ⊢
            by_cases hzx : lt z x = true
            · rw [if_pos hzx] at hins ⊢
              exact List.chain'_cons.mpr ⟨hl.1, hins⟩
            · rw [if_neg hzx] at hins ⊢
              exact List.chain'_cons.mpr ⟨hasym _ _ hyx, hins⟩
      · rw [if_neg hyx]
        exact List.chain'_cons.mpr ⟨eq_false_of_ne_true hyx, hl⟩

theorem pySorted_chain {α : Type} (lt : α → α → Bool)
    (hasym : ∀ a b, lt a b = true → lt b a = false) :
    ∀ l : List α, List.Chain' (fun a b => lt b a = false) (pySorted lt l) := by
  intro l
  induction l with
  | nil => simp [pySorted]
  | cons x xs ih => exact pyInsert_chain lt hasym x _ ih

theorem pyInsert_filter_not {α : Type} (lt : α → α → Bool) (p : α → Bool) (x : α)
    (hx : p x = false) :
    ∀ l : List α, (pyInsert lt x l).filter p = l.filter p := by
  intro l
  induction l with
  | nil => simp [pyInsert, hx]
  | cons y ys ih =>
      unfold pyInsert
      by_cases hyx : lt y x = true
      · rw [if_pos hyx]
        rw [List.filter_cons, List.filter_cons, ih]
      · rw [if_neg hyx]
        simp [List.filter_cons, hx]

theorem pyInsert_filter_yes {α : Type} (lt : α → α → Bool) (p : α → Bool) (x : α)
    (hx : p x = true) (hbefore : ∀ y, lt y x = true → p y = false) :
    ∀ l : List α, (pyInsert lt x l).filter p = x :: l.filter p := by
  intro l
  induction l with
  | nil => simp [pyInsert, hx]
  | cons y ys ih =>
      unfold pyInsert
      by_cases hyx : lt y x = true
      · rw [if_pos hyx]
        rw [List.filter_cons, hbefore y hyx, List.filter_cons, hbefore y hyx]
        simp only [Bool.false_eq_true, if_false]
        exact ih
      · rw [if_neg hyx]
        simp [List.filter_cons, hx]

theorem pySorted_filter {α : Type} (lt : α → α → Bool) (p : α → Bool)
    (hcompat : ∀ a b, lt a b = true → p a = true → p b = true → False) :
    ∀ l : List α, (pySorted lt l).filter p = l.filter p := by
  intro l
  induction l with
  | nil => rfl
  | cons x xs ih =>
      unfold pySorted
      by_cases hx : p x = true
      · rw [pyInsert_filter_yes lt p x hx
            (fun y hy => by
              by_cases hpy : p y = true
              · exact (hcompat y x hy hpy hx).elim
              · exact eq_false_of_ne_true hpy),
          ih, List.filter_cons, hx]
        simp
      · rw [pyInsert_filter_not lt p x (eq_false_of_ne_true hx), ih,
          List.filter_cons, eq_false_of_ne_true hx]
        simp

/-! ### C4: sort is a stable, purely lexicographic string sort -/

theorem sortLt_asymm (key : String) (reverse : Bool) :
    ∀ a b, sortLt key reverse a b = true → sortLt key reverse b a = false := by
  intro a b h
  cases reverse with
  | false =>
      unfold sortLt at h ⊢
      exact strLt_asymm _ _ h
  | true =>
      unfold sortLt at h ⊢
      exact strLt_asymm _ _ h

theorem sortLt_compat (key : String) (reverse : Bool) (s : String) :
    ∀ a b, sortLt key reverse a b = true →
      (sortKey key a == s) = true → (sortKey key b == s) = true → False := by
  intro a b h ha hb
  have ha' : sortKey key a = s := by simpa using ha
  have hb' : sortKey key b = s := by simpa using hb
  cases reverse with
  | false =>
      unfold sortLt at h
      rw [ha', hb'] at h
      rw [strLt_irrefl s] at h
      exact Bool.noConfusion h
  | true =>
      unfold sortLt at h
      rw [ha', hb'] at h
      rw [strLt_irrefl s] at h
      exact Bool.noConfusion h

/-- C4 amended: `sort(key, reverse)` is a stable sort of the records by the
string form of the resolved field value with the empty string for a field
that is unresolvable or resolves to a falsy value (Python `or ""`), the
comparison purely lexicographic on strings: ascending for `reverse=False`,
descending for `reverse=True`; stability is the clause that every
equal-key class keeps its original order; and on the field values
`"2", "10", "1"` the ascending order is `"1", "10", "2"`. -/
theorem sort_stable_lexicographic :
    ∀ (t : ResourceTable) (key : String),
      List.Chain' (fun a b => strLe (sortKey key a) (sortKey key b) = true) (t.sort key false).data
      ∧ (∀ s, ((t.sort key false).data).filter (fun x => sortKey key x == s)
            = t.data.filter (fun x => sortKey key x == s))
      ∧ List.Chain' (fun a b => strLe (sortKey key b) (sortKey key a) = true) (t.sort key true).data
      ∧ (∀ s, ((t.sort key true).data).filter (fun x => sortKey key x == s)
            = t.data.filter (fun x => sortKey key x == s))
      ∧ (ResourceTable.sort
            ⟨[PyVal.dict [("v", PyVal.str "2")], PyVal.dict [("v", PyVal.str "10")],
              PyVal.dict [("v", PyVal.str "1")]], Option.none, Option.none⟩ "v" false).data
          = [PyVal.dict [("v", PyVal.str "1")], PyVal.dict [("v", PyVal.str "10")],
             PyVal.dict [("v", PyVal.str "2")]] := by
  intro t key
  refine ⟨?_, ?_, ?_, ?_, rfl⟩
  · have h := pySorted_chain (sortLt key false) (sortLt_asymm key false) t.data
    refine List.Chain'.imp ?_ h
    intro a b hab
    have hab' : strLt (sortKey key b) (sortKey key a) = false := hab
    unfold strLe
    rw [hab']
    rfl
  · intro s
    exact pySorted_filter (sortLt key false) _ (sortLt_compat key false s) t.data
  · have h := pySorted_chain (sortLt key true) (sortLt_asymm key true) t.data
    refine List.Chain'.imp ?_ h
    intro a b hab
    have hab' : strLt (sortKey key a) (sortKey key b) = false := hab
    unfold strLe
    rw [hab']
    rfl
  · intro s
    exact pySorted_filter (sortLt key true) _ (sortLt_compat key true s) t.data

/-- C4 counterexample: the record `{"v": 0}` has a perfectly resolvable
field, yet its sort key is `""` (Python `0 or ""` is `""`), not `"0"`: paired
with `{"v": "!"}` the code returns the `0`-record first although the claim's
key `"0"` is lexicographically greater than `"!"` — the result is not ordered
by the claim's key, refuting "empty string exactly for unresolvable". -/
theorem sort_key_falsy_cex :
    (ResourceTable.sort
        ⟨[PyVal.dict [("v", PyVal.int 0)], PyVal.dict [("v", PyVal.str "!")]],
          Option.none, Option.none⟩ "v" false).data
      = [PyVal.dict [("v", PyVal.int 0)], PyVal.dict [("v", PyVal.str "!")]]
    ∧ get_value (PyVal.dict [("v", PyVal.int 0)]) "v" = PyVal.int 0
    ∧ sortKey "v" (PyVal.dict [("v", PyVal.int 0)]) = ""
    ∧ claimSortKey "v" (PyVal.dict [("v", PyVal.int 0)]) = "0"
    ∧ claimSortKey "v" (PyVal.dict [("v", PyVal.str "!")]) = "!"
    ∧ strLe "0" "!" = false :=
  ⟨rfl, rfl, rfl, rfl, rfl, rfl⟩


/-! ### C1: keyword-filter wildcard semantics -/

theorem scalarMatch_eq_spec (value itemStr : String) :
    scalarMatch (startsWithS value "*") (endsWithS value "*")
        (stripStars (lowerS value)) (lowerS itemStr)
      = specScalarKeep value itemStr := by
  unfold scalarMatch specScalarKeep
  rw [stripStars_lowerS]
  by_cases h1 : startsWithS value "*" = true
  · by_cases h2 : endsWithS value "*" = true
    · simp [h1, h2]
    · simp [h1, eq_false_of_ne_true h2]
  · by_cases h2 : endsWithS value "*" = true
    · simp [eq_false_of_ne_true h1, h2]
    · have h1' := eq_false_of_ne_true h1
      have h2' := eq_false_of_ne_true h2
      simp [h1', h2', stripStars_eq_self value h1' h2']

theorem kwMatch_eq_specKeep (key value : String) (item : PyVal) :
    kwMatch key (.str value) item = specKeep key value item := by
  cases item with
  | dict fs =>
      simp only [kwMatch, specKeep, PyVal.isDict, Bool.true_and]
      cases hres : kwResolve (.dict fs) key with
      | none => simp [hres]
      | dict gs => simp [hres, pyStr, stripStars_lowerS]
      | list xs => simp [hres, pyStr, stripStars_lowerS]
      | bool b => simp [hres, pyStr, scalarMatch_eq_spec]
      | int n => simp [hres, pyStr, scalarMatch_eq_spec]
      | str s => simp [hres, pyStr, scalarMatch_eq_spec]
      | dt y mo d h mi ss => simp [hres, pyStr, scalarMatch_eq_spec]
  | none => simp [kwMatch, specKeep, PyVal.isDict]
  | bool b => simp [kwMatch, specKeep, PyVal.isDict]
  | int n => simp [kwMatch, specKeep, PyVal.isDict]
  | str s => simp [kwMatch, specKeep, PyVal.isDict]
  | dt y mo d h mi ss => simp [kwMatch, specKeep, PyVal.isDict]
  | list xs => simp [kwMatch, specKeep, PyVal.isDict]

/-- The record `{"Name": "web-1"}` of the claim's concrete example. -/
def webRec1 : PyVal := PyVal.dict [("Name", PyVal.str "web-1")]

/-- The record `{"Name": "web-2"}` of the claim's concrete example. -/
def webRec2 : PyVal := PyVal.dict [("Name", PyVal.str "web-2")]

/-- The record `{"Name": "db-1"}` of the claim's concrete example. -/
def dbRec1 : PyVal := PyVal.dict [("Name", PyVal.str "db-1")]

/-- The three-record collection of the claim's concrete example. -/
def webTable : ResourceTable := ⟨[webRec1, webRec2, dbRec1], Option.none, Option.none⟩

/-- C1 amended: the keyword filter keeps exactly the mapping records whose
field — resolved as a dotted path with the tag fallback — matches the value
under the wildcard mode (contains for `*v*`, suffix for `*v`, prefix for
`v*`, case-insensitive equality otherwise) when the resolved value is a
scalar; a field resolving to a dict or list is instead matched by
containment of the stripped value over its stringified members whatever the
markers, and a field resolving to `None` even after the fallback drops the
record. The claim's four concrete examples hold as stated. -/
theorem filterKw_wildcard_spec :
    ∀ (t : ResourceTable) (key value : String),
      (t.filterKw key (.str value)).data = t.data.filter (specKeep key value)
      ∧ (webTable.filterKw "Name" (.str "web*")).data = [webRec1, webRec2]
      ∧ (webTable.filterKw "Name" (.str "*1")).data = [webRec1, dbRec1]
      ∧ (webTable.filterKw "Name" (.str "*eb*")).data = [webRec1, webRec2]
      ∧ (webTable.filterKw "Name" (.str "web-1")).data = [webRec1] := by
  intro t key value
  refine ⟨?_, rfl, rfl, rfl, rfl⟩
  simp only [ResourceTable.filterKw]
  exact List.filter_congr (fun a _ => kwMatch_eq_specKeep key value a)

/-- C1 counterexample: on the mapping record `{"Name": ["x"]}` the
marker-free call `filter(Name="x")` keeps the record (list values always
match by containment over their members), although the stringified resolved
field is `"['x']"`, which does not equal `"x"` case-insensitively — the
claim's "no markers keep exactly the records whose stringified field equals
the value" fails. -/
theorem filterKw_exact_mode_cex :
    (ResourceTable.filterKw
        ⟨[PyVal.dict [("Name", PyVal.list [PyVal.str "x"])]], Option.none, Option.none⟩
        "Name" (PyVal.str "x")).data
      = [PyVal.dict [("Name", PyVal.list [PyVal.str "x"])]]
    ∧ kwResolve (PyVal.dict [("Name", PyVal.list [PyVal.str "x"])]) "Name"
        = PyVal.list [PyVal.str "x"]
    ∧ pyStr (PyVal.list [PyVal.str "x"]) = "['x']"
    ∧ lowerS (pyStr (PyVal.list [PyVal.str "x"])) ≠ lowerS "x" := by
  refine ⟨rfl, rfl, rfl, ?_⟩
  intro h
  have h2 : ("['x']" : String) = "x" := h
  exact absurd h2 (by decide)

/-! ### C6: field resolution and the tag fallback -/

theorem startsWith_tags_append (key : String) :
    startsWithS ("Tags." ++ key) "Tags." = true := by
  unfold startsWithS
  rw [List.isPrefixOf_iff_prefix, String.data_append]
  exact List.prefix_append _ _

theorem strDrop_tags_append (key : String) : strDrop ("Tags." ++ key) 5 = key := by
  unfold strDrop
  apply String.ext
  show (("Tags." ++ key).data).drop 5 = key.data
  rw [String.data_append]
  exact List.drop_left "Tags.".data key.data

/-- The record `{"Tags": [{"Key": "Name", "Value": "prod-box"}]}` of the
claim's concrete example. -/
def tagRecord : PyVal :=
  PyVal.dict [("Tags", PyVal.list [PyVal.dict [("Key", PyVal.str "Name"), ("Value", PyVal.str "prod-box")]])]

/-- C6 amended: in the keyword filter a field name resolves as a dotted path
(`Tags.`-prefixed names scan the tag list directly); when that yields `None`
the filter retries as `Tags.<field>`, which scans the record's tag list of
`{Key, Value}` pairs — there is no separate literal whole-name lookup (and
`sort`'s key resolution uses `_get_value` alone, without the retry).
Consequently `{"Tags": [{"Key": "Name", "Value": "prod-box"}]}`, with no
top-level `Name` field, is matched by `filter(Name="prod-box")`. -/
theorem filter_resolution_tag_fallback :
    ∀ (fs : List (String × PyVal)) (key : String),
      (get_value (PyVal.dict fs) key = PyVal.none →
        kwResolve (PyVal.dict fs) key = tagScan (tagsOf fs) key)
      ∧ (ResourceTable.filterKw ⟨[tagRecord], Option.none, Option.none⟩
          "Name" (PyVal.str "prod-box")).data = [tagRecord]
      ∧ get_value tagRecord "Name" = PyVal.none
      ∧ tagScan (tagsOf [("Tags", PyVal.list [PyVal.dict [("Key", PyVal.str "Name"), ("Value", PyVal.str "prod-box")]])]) "Name"
          = PyVal.str "prod-box" := by
  intro fs key
  refine ⟨?_, rfl, rfl, rfl⟩
  intro h
  unfold kwResolve
  simp only [h, PyVal.isNone, if_true]
  have hstep : get_value (PyVal.dict fs) ("Tags." ++ key)
      = tagScan (tagsOf fs) (strDrop ("Tags." ++ key) 5) := by
    show (if startsWithS ("Tags." ++ key) "Tags." = true
          then tagScan (tagsOf fs) (strDrop ("Tags." ++ key) 5)
          else walkPath (PyVal.dict fs) (splitDot ("Tags." ++ key)))
        = tagScan (tagsOf fs) (strDrop ("Tags." ++ key) 5)
    rw [if_pos (startsWith_tags_append key)]
  rw [hstep, strDrop_tags_append]

/-- C6 counterexample: the record `{"a.b": "zz"}` holds the literal field
`"a.b"` with a value exactly equal to the filter's, yet `filter` drops it —
resolution splits the name into the path `a`, `b` and never tries the
literal field first, refuting the claimed literal-first resolution order. -/
theorem resolution_literal_key_cex :
    (ResourceTable.filterKw ⟨[PyVal.dict [("a.b", PyVal.str "zz")]], Option.none, Option.none⟩
        "a.b" (PyVal.str "zz")).data = []
    ∧ dictFind [("a.b", PyVal.str "zz")] "a.b" = some (PyVal.str "zz")
    ∧ lowerS (pyStr (PyVal.str "zz")) = lowerS "zz" :=
  ⟨rfl, rfl, rfl⟩

/-! ### C7: find as flattened substring search -/

theorem any_eq_not_isEmpty_filter {α : Type} (p : α → Bool) :
    ∀ l : List α, l.any p = !(l.filter p).isEmpty := by
  intro l
  induction l with
  | nil => rfl
  | cons x xs ih =>
      by_cases hx : p x = true
      · simp [List.any_cons, List.filter_cons, hx]
      · simp [List.any_cons, List.filter_cons, eq_false_of_ne_true hx, ih]

theorem findMatch_cases (kw : String) (item : PyVal) :
    findMatch kw item
      = (if item.isDict then !(fuzzy_search item kw).isEmpty
         else containsS (lowerS (pyStr item)) (lowerS kw)) := by
  cases item with
  | dict fs =>
      simp only [findMatch, fuzzy_search, PyVal.isDict, if_true]
      rw [any_eq_not_isEmpty_filter]
      have hcomm : ∀ pv : String × String,
          (containsS (lowerS pv.2) (lowerS kw) || containsS (lowerS pv.1) (lowerS kw))
            = (containsS (lowerS pv.1) (lowerS kw) || containsS (lowerS pv.2) (lowerS kw)) :=
        fun pv => Bool.or_comm _ _
      rw [List.filter_congr (fun a _ => hcomm a)]
  | none => simp [findMatch, PyVal.isDict]
  | bool b => simp [findMatch, PyVal.isDict]
  | int n => simp [findMatch, PyVal.isDict]
  | str s => simp [findMatch, PyVal.isDict]
  | dt y mo d h mi ss => simp [findMatch, PyVal.isDict]
  | list xs => simp [findMatch, PyVal.isDict]

/-- The record `{"Region": "us-east-1"}` of the claim's concrete example. -/
def regionRec : PyVal := PyVal.dict [("Region", PyVal.str "us-east-1")]

/-- C7 amended: `find(keyword)` keeps a mapping record exactly when the
keyword occurs case-insensitively in some flattened path or stringified value
of its recursive walk (equivalently, `fuzzy_search` returns a non-empty
match list), while a non-mapping record is kept when the keyword occurs in
the stringified record as a whole (which coincides with the flattened rule
for scalar records); the result carries the title `Search: '<keyword>'`;
and on `{"Region": "us-east-1"}`, `find("east")` matches while
`find("east-2")` does not. -/
theorem find_flatten_spec :
    ∀ (t : ResourceTable) (kw : String),
      (t.find kw).data = t.data.filter (fun item =>
          if item.isDict then !(fuzzy_search item kw).isEmpty
          else containsS (lowerS (pyStr item)) (lowerS kw))
      ∧ (t.find kw).title = some ("Search: '" ++ kw ++ "'")
      ∧ (ResourceTable.find ⟨[regionRec], Option.none, Option.none⟩ "east").data = [regionRec]
      ∧ (ResourceTable.find ⟨[regionRec], Option.none, Option.none⟩ "east-2").data = [] := by
  intro t kw
  refine ⟨?_, rfl, rfl, rfl⟩
  simp only [ResourceTable.find]
  exact List.filter_congr (fun a _ => findMatch_cases kw a)

/-- C7 counterexample: the list record `[1, 2]` is kept by `find(", ")` —
the keyword occurs in `str([1, 2])` — although no flattened path or value of
its recursive walk contains `", "`, refuting the claim's "for every
collection" flattened-walk characterization. -/
theorem find_list_record_cex :
    (ResourceTable.find ⟨[PyVal.list [PyVal.int 1, PyVal.int 2]], Option.none, Option.none⟩
        ", ").data = [PyVal.list [PyVal.int 1, PyVal.int 2]]
    ∧ flatten_json (PyVal.list [PyVal.int 1, PyVal.int 2]) "" = [("[0]", "1"), ("[1]", "2")]
    ∧ ((flatten_json (PyVal.list [PyVal.int 1, PyVal.int 2]) "").all
        (fun pv => !(containsS (lowerS pv.1) (lowerS ", "))
          && !(containsS (lowerS pv.2) (lowerS ", ")))) = true :=
  ⟨rfl, rfl, rfl⟩

end AwsShell

